import Mathlib

/-! Shallow embedding of the NitroFS FUSE filesystem core (src/nitrofs.c):
the mapped-image byte source, the name-table and allocation-table decoding,
the recursive tree build, path traversal, directory listing, stat filling and
file reads, together with theorems settling the specification's claims.

Modelling conventions:
- machine bytes are Nat values < 256; 16/32-bit table fields are decoded
  little-endian, as the C memcpy from the mapped image does on the target;
- the mapped image is a List Nat; a read beyond the list yields 0
  (the C performs no bounds check on any table-derived offset, so reads past
  a declared table simply return whatever bytes are there);
- uint32 subtraction wraps, modelled by u32sub;
- the C recursion in nitro_build_subdir carries no structural bound, so the
  embedding takes explicit fuel: a result of none means the recursion (or the
  subentry loop) did not complete within the given fuel, and a result that
  holds for no fuel at all corresponds to unbounded recursion in the C code;
- entry names store the raw encoded name bytes; every string operation of the
  C code (strlen/strcmp/memcmp against a path component, handing the name to
  the readdir filler) sees the name truncated at the first 0 byte, modelled
  by cstr. -/

/-- NitroFS root directory ID (0xF000). -/
def NITRO_ROOT : Nat := 61440

/-- NitroFS directory ID mask (0x0FFF): masking keeps the low 12 bits,
i.e. the value mod 4096. -/
def NITRO_DIRMASK : Nat := 4095

/-- NitroFS directory mode dr-xr-xr-x (S_IFDIR with 0555). -/
def NITRO_DIR_MODE : Nat := 0o40555

/-- NitroFS file mode -r--r--r-- (S_IFREG with 0444). -/
def NITRO_FILE_MODE : Nat := 0o100444

/-- Entry type (nitro_type_t): file or directory. -/
inductive nitro_type_t where
  | NITRO_FILE_TYPE
  | NITRO_DIR_TYPE
deriving DecidableEq, Repr

/-- NitroFS tree entry (struct nitrofs_entry_t). The C parent pointer is
represented by the parent's numeric id (its only observed use is
entry->parent->id in nitro_fill_stat; the root is its own parent); the
sibling-linked child list is represented as the list of children in
declaration order. The name holds the raw encoded name bytes. -/
inductive nitrofs_entry_t where
  | mk (etype : nitro_type_t) (size : Nat) (links : Nat) (id : Nat) (parentId : Nat)
      (name : List Nat) (children : List nitrofs_entry_t)

/-- Entry type accessor. -/
def nitrofs_entry_t.etype : nitrofs_entry_t → nitro_type_t
  | .mk t _ _ _ _ _ _ => t

/-- Entry size accessor. -/
def nitrofs_entry_t.size : nitrofs_entry_t → Nat
  | .mk _ s _ _ _ _ _ => s

/-- Entry link-count accessor. -/
def nitrofs_entry_t.links : nitrofs_entry_t → Nat
  | .mk _ _ l _ _ _ _ => l

/-- Entry id accessor. -/
def nitrofs_entry_t.id : nitrofs_entry_t → Nat
  | .mk _ _ _ i _ _ _ => i

/-- Parent id accessor (entry->parent->id). -/
def nitrofs_entry_t.parentId : nitrofs_entry_t → Nat
  | .mk _ _ _ _ p _ _ => p

/-- Entry name accessor (raw encoded bytes). -/
def nitrofs_entry_t.name : nitrofs_entry_t → List Nat
  | .mk _ _ _ _ _ n _ => n

/-- Children accessor (declaration order). -/
def nitrofs_entry_t.children : nitrofs_entry_t → List nitrofs_entry_t
  | .mk _ _ _ _ _ _ ch => ch

/-- Entry in the main FNT table (fnt_main_entry_t). -/
structure fnt_main_entry_t where
  offset : Nat
  next_id : Nat
  parent_id : Nat
deriving DecidableEq, Repr

/-- Entry in the FAT table (fat_entry_t). -/
structure fat_entry_t where
  start_offset : Nat
  end_offset : Nat
deriving DecidableEq, Repr

/-- The mapped NDS image together with the four header-derived globals
(fnt_offset, fnt_length, fat_offset, fat_length from offsets
0x40/0x44/0x48/0x4C). Note the C code never consults fnt_length or
fat_length after reading them. -/
structure Image where
  mapping : List Nat
  fnt_offset : Nat
  fnt_length : Nat
  fat_offset : Nat
  fat_length : Nat
deriving DecidableEq, Repr

/-- One byte of the mapped image; reads past the mapping give 0. -/
def Image.byte (img : Image) (i : Nat) : Nat :=
  (img.mapping.getD i 0) % 256

/-- Little-endian 16-bit read, as the C memcpy into a uint16_t. -/
def Image.u16 (img : Image) (i : Nat) : Nat :=
  img.byte i + 256 * img.byte (i + 1)

/-- Little-endian 32-bit read, as the C memcpy into a uint32_t. -/
def Image.u32 (img : Image) (i : Nat) : Nat :=
  img.byte i + 256 * img.byte (i + 1) + 65536 * img.byte (i + 2) +
    16777216 * img.byte (i + 3)

/-- A run of len raw bytes starting at offset i (the memcpy of a name). -/
def Image.bytesAt (img : Image) (i len : Nat) : List Nat :=
  (List.range len).map (fun j => img.byte (i + j))

/-- The main FNT record at a given 12-bit index:
memcpy from nds_mapping + fnt_offset + index*sizeof(fnt_main_entry_t).
The C performs no comparison of the computed offset with fnt_length. -/
def Image.fntMain (img : Image) (index : Nat) : fnt_main_entry_t :=
  { offset := img.u32 (img.fnt_offset + 8 * index)
    next_id := img.u16 (img.fnt_offset + 8 * index + 4)
    parent_id := img.u16 (img.fnt_offset + 8 * index + 6) }

/-- The FAT record for a file id:
memcpy from nds_mapping + fat_offset + id*sizeof(fat_entry_t). -/
def Image.fatEntry (img : Image) (id : Nat) : fat_entry_t :=
  { start_offset := img.u32 (img.fat_offset + 8 * id)
    end_offset := img.u32 (img.fat_offset + 8 * id + 4) }

/-- Wrapping uint32 subtraction (end_offset - start_offset in
nitro_init_file is computed in uint32_t). -/
def u32sub (a b : Nat) : Nat :=
  (a + 4294967296 - b % 4294967296) % 4294967296

/-- The length field of the subentry record at offset p:
the low 7 bits of the length/type byte (*p & 0x7F). -/
def subentryLen (img : Image) (p : Nat) : Nat :=
  img.byte p % 128

/-- The subdirectory id stored right after the name of the subentry at p
(memcpy of the 2 bytes at p + len + 1). -/
def subentryId (img : Image) (p : Nat) : Nat :=
  img.u16 (p + subentryLen img p + 1)

/-- nitro_build_subdir: decode one directory's subentry stream starting at
absolute offset p, with next_id the running sequential file id and dirId the
id of the directory being filled (used as the children's parent id).
Returns (children in declaration order, size added to the directory,
links added to the directory), or none when the fuel is exhausted.
Subdirectory subentries recurse into the referenced main FNT record before
the loop continues; file subentries take the current next_id as their id
and FAT index and increment it. The C's next_id is a uint16_t, so the
increment wraps mod 65536 (every entry value comes from a u16 table read
and is below 65536 already); dir->size and dir->links are uint32_t, so the
accumulations truncate mod 4294967296. -/
def nitro_build_subdir (img : Image) (dirId : Nat) :
    Nat → Nat → Nat → Option (List nitrofs_entry_t × Nat × Nat)
  | 0, _, _ => none
  | fuel + 1, p, next_id =>
    if img.byte p = 0 then
      some ([], 0, 0)
    else if 128 ≤ img.byte p then
      match nitro_build_subdir img (subentryId img p) fuel
          (img.fnt_offset + (img.fntMain (subentryId img p % 4096)).offset)
          (img.fntMain (subentryId img p % 4096)).next_id with
      | none => none
      | some (subCh, subSize, subLinks) =>
        match nitro_build_subdir img dirId fuel (p + subentryLen img p + 3) next_id with
        | none => none
        | some (restCh, restSize, restLinks) =>
          some (nitrofs_entry_t.mk .NITRO_DIR_TYPE subSize ((2 + subLinks) % 4294967296)
                  (subentryId img p) dirId (img.bytesAt (p + 1) (subentryLen img p))
                  subCh :: restCh,
                (subentryLen img p + 3 + restSize) % 4294967296,
                (1 + restLinks) % 4294967296)
    else
      match nitro_build_subdir img dirId fuel (p + subentryLen img p + 1)
          ((next_id + 1) % 65536) with
      | none => none
      | some (restCh, restSize, restLinks) =>
        some (nitrofs_entry_t.mk .NITRO_FILE_TYPE
                (u32sub (img.fatEntry next_id).end_offset (img.fatEntry next_id).start_offset)
                2 next_id dirId (img.bytesAt (p + 1) (subentryLen img p)) [] :: restCh,
              (subentryLen img p + 1 + restSize) % 4294967296, restLinks)

/-- nitro_build_tree: initialize the root (id NITRO_ROOT, its own parent,
size 0, links 2), read the main FNT record at index 0 and fill the root's
children from its subentry stream. -/
def nitro_build_tree (img : Image) (fuel : Nat) : Option nitrofs_entry_t :=
  match nitro_build_subdir img NITRO_ROOT fuel
      (img.fnt_offset + (img.fntMain 0).offset) (img.fntMain 0).next_id with
  | none => none
  | some (ch, s, l) =>
    some (nitrofs_entry_t.mk .NITRO_DIR_TYPE s ((2 + l) % 4294967296) NITRO_ROOT NITRO_ROOT [] ch)

/-- The stat buffer fields filled by nitro_fill_stat (the uid/gid/time
fields come from the process environment and are not modelled). -/
structure stat_t where
  st_ino : Nat
  st_nlink : Nat
  st_size : Nat
  st_blksize : Nat
  st_blocks : Nat
  st_mode : Nat
deriving DecidableEq, Repr

/-- nitro_fill_stat: the inode number is
((uint32_t)entry->parent->id << 8) | entry->id, a uint32 computation. -/
def nitro_fill_stat (entry : nitrofs_entry_t) : stat_t :=
  { st_ino := ((entry.parentId <<< 8) ||| entry.id) % 4294967296
    st_nlink := entry.links
    st_size := entry.size
    st_blksize := 4096
    st_blocks := (entry.size + 4095) / 4096
    st_mode := if entry.etype = .NITRO_DIR_TYPE then NITRO_DIR_MODE else NITRO_FILE_MODE }

/-- The C string stored in an entry's name field as seen by
strlen/strcmp/memcmp and the readdir filler: the bytes up to the first 0. -/
def cstr (name : List Nat) : List Nat :=
  name.takeWhile (fun c => c ≠ 0)

/-- Name/component match used by nitro_traverse_path. For an intermediate
component the C checks strlen(entry->name) == p-path and
memcmp(path, entry->name, p-path) == 0; for the final component it checks
strcmp(path, entry->name) == 0. Both are equivalent to the entry's C string
being byte-for-byte the component. -/
def nameMatch (name comp : List Nat) : Bool :=
  cstr name == comp

/-- Scan a directory's children in declaration order for the first name
match (the for loop over dir->children). -/
def findChild (dir : nitrofs_entry_t) (comp : List Nat) : Option nitrofs_entry_t :=
  dir.children.find? (fun e => nameMatch e.name comp)

/-- The directory after an intermediate component: the first matching child
if any; otherwise the C loop leaves dir unchanged and goes on to the next
component. -/
def childOrSelf (dir : nitrofs_entry_t) (comp : List Nat) : nitrofs_entry_t :=
  (findChild dir comp).getD dir

/-- The strchr-driven loop of nitro_traverse_path, one byte at a time:
acc accumulates the current component (reversed); at a separator the
current directory is replaced by the matching child (or kept, when no child
matches); at the end of the path the final component is looked up and the
result returned (none = ENOENT). -/
def nitro_traverse_loop : nitrofs_entry_t → List Nat → List Nat → Option nitrofs_entry_t
  | dir, acc, [] => findChild dir acc.reverse
  | dir, acc, c :: rest =>
    if c = 47 then nitro_traverse_loop (childOrSelf dir acc.reverse) [] rest
    else nitro_traverse_loop dir (c :: acc) rest

/-- nitro_traverse_path: the exact path "/" yields the root; otherwise the
first byte is skipped (the ++path) and the component loop runs. -/
def nitro_traverse_path (root : nitrofs_entry_t) (path : List Nat) : Option nitrofs_entry_t :=
  if path = [47] then some root
  else nitro_traverse_loop root [] (path.drop 1)

/-- The child-emitting loop of nitro_readdir with a filler that always
accepts: each child is emitted when the running off equals the requested
offset, which is then advanced past it. -/
def nitro_readdir_loop : List nitrofs_entry_t → Nat → Nat → List (List Nat)
  | [], _, _ => []
  | c :: rest, off, offset =>
    if off = offset then cstr c.name :: nitro_readdir_loop rest (off + 1) (offset + 1)
    else nitro_readdir_loop rest (off + 1) offset

/-- nitro_readdir with a filler that always accepts, returning the emitted
names: offset 0 emits "." (byte 46), offset 1 emits "..", then the children
are emitted from directory offset 2 on, in declaration order. -/
def nitro_readdir (entry : nitrofs_entry_t) (offset : Nat) : List (List Nat) :=
  if offset = 0 then
    [46] :: [46, 46] :: nitro_readdir_loop entry.children 2 2
  else if offset = 1 then
    [46, 46] :: nitro_readdir_loop entry.children 2 2
  else
    nitro_readdir_loop entry.children 2 offset

/-- Errors returned by the read path of the driver. -/
inductive nitro_error_t where
  | EINVAL
deriving DecidableEq, Repr

/-- nitro_read: negative offset fails EINVAL; offset at or past the entry
size reads zero bytes; otherwise the byte count is clamped to
entry.size - offset and that many bytes are copied starting at the FAT
record's start_offset — the C memcpy source is
nds_mapping + fat_entry.start_offset, without adding the request offset. -/
def nitro_read (img : Image) (entry : nitrofs_entry_t) (size : Nat) (offset : Int) :
    Except nitro_error_t (List Nat) :=
  if offset < 0 then
    .error .EINVAL
  else if (entry.size : Int) ≤ offset then
    .ok []
  else
    .ok (img.bytesAt (img.fatEntry entry.id).start_offset
      (if entry.size < offset.toNat + size then entry.size - offset.toNat else size))

/-- The byte count of a successful read. -/
def okLength : Except nitro_error_t (List Nat) → Option Nat
  | .ok bs => some bs.length
  | .error _ => none

/-- The number of bytes a child's subentry record contributes to its
parent's size: 1 length/type byte + the encoded name bytes, plus the 2 id
bytes for a subdirectory (len+3 for directories, len+1 for files). -/
def childSizeBytes (e : nitrofs_entry_t) : Nat :=
  e.name.length + (if e.etype = .NITRO_DIR_TYPE then 3 else 1)

/-- Sum of the encoded child-record sizes of a child list. -/
def sumContrib (ch : List nitrofs_entry_t) : Nat :=
  (ch.map childSizeBytes).sum

mutual
/-- Every directory entry in this subtree has size equal to the sum of its
children's encoded record sizes reduced mod 4294967296, the uint32
truncation of the C's size accumulator (files carry their FAT size
instead). -/
def sizesOk : nitrofs_entry_t → Bool
  | .mk t sz _ _ _ _ ch =>
    (t == .NITRO_FILE_TYPE || sz == sumContrib ch % 4294967296) && sizesOkList ch
/-- sizesOk over a child list. -/
def sizesOkList : List nitrofs_entry_t → Bool
  | [] => true
  | e :: es => sizesOk e && sizesOkList es
end

mutual
/-- No entry anywhere below this one has an empty C-string name. -/
def noEmptyNames : nitrofs_entry_t → Bool
  | .mk _ _ _ _ _ _ ch => noEmptyNamesList ch
/-- noEmptyNames over a child list. -/
def noEmptyNamesList : List nitrofs_entry_t → Bool
  | [] => true
  | e :: es => (!(cstr e.name).isEmpty) && noEmptyNames e && noEmptyNamesList es
end

/-- Collapse every run of consecutive path separators (byte 47) into a
single separator. On a path whose final component is nonempty this is
exactly removal of the empty intermediate components. -/
def dedupSlashes : List Nat → List Nat
  | [] => []
  | [c] => [c]
  | c :: d :: rest =>
    if c = 47 ∧ d = 47 then dedupSlashes (d :: rest)
    else c :: dedupSlashes (d :: rest)

/-- Image for the read-offset experiment: one FAT record at index 0 with
extent [16, 18) over the bytes 10, 20. -/
def imgRead : Image :=
  { mapping := [16, 0, 0, 0, 18, 0, 0, 0, 0, 0, 0, 0, 0, 0, 0, 0, 10, 20]
    fnt_offset := 0, fnt_length := 0, fat_offset := 0, fat_length := 0 }

/-- A file entry of size 2 with id 0, as nitro_build_subdir would create it
for the extent [16, 18). -/
def fileRead : nitrofs_entry_t :=
  .mk .NITRO_FILE_TYPE 2 2 0 NITRO_ROOT [102] []

/-- File entry named "c" (child of dirA). -/
def entC : nitrofs_entry_t := .mk .NITRO_FILE_TYPE 5 2 7 1 [99] []

/-- Directory entry named "a" with the single child "c". -/
def dirA : nitrofs_entry_t := .mk .NITRO_DIR_TYPE 2 3 1 NITRO_ROOT [97] [entC]

/-- A root whose single child is the directory "a"; there is no "b"
anywhere in the tree. -/
def rootAC : nitrofs_entry_t :=
  .mk .NITRO_DIR_TYPE 4 3 NITRO_ROOT NITRO_ROOT [] [dirA]

/-- A self-referential image: the main FNT record at index 0 points at a
subentry stream holding one subdirectory subentry whose stored id 0xF000
masks back to index 0, so expanding the subdirectory re-enters the very
same stream with the very same arguments. -/
def imgCyc : Image :=
  { mapping := [8, 0, 0, 0, 0, 0, 0, 0, 129, 65, 0, 240, 0]
    fnt_offset := 0, fnt_length := 13, fat_offset := 0, fat_length := 0 }

/-- An image whose root stream holds one subdirectory subentry with stored
id 5: its main record would occupy name-table bytes [40, 48), past the
declared fnt_length of 16. The bytes found there describe an empty stream,
so the unchecked build happily produces a tree. -/
def imgOob : Image :=
  { mapping := [8, 0, 0, 0, 0, 0, 0, 0, 129, 66, 5, 0, 0] ++
      List.replicate 27 0 ++ [13, 0, 0, 0, 0, 0, 0, 0]
    fnt_offset := 0, fnt_length := 16, fat_offset := 0, fat_length := 0 }

/-- An image whose root directory holds the three files "B", "A", "C"
declared in exactly that (unsorted) order, with first sequential file id 1
and FAT extents of sizes 3, 2 and 5. -/
def imgBAC : Image :=
  { mapping := [8, 0, 0, 0, 1, 0, 0, 0, 1, 66, 1, 65, 1, 67, 0] ++
      List.replicate 93 0 ++
      [200, 0, 0, 0, 203, 0, 0, 0, 203, 0, 0, 0, 205, 0, 0, 0,
       205, 0, 0, 0, 210, 0, 0, 0]
    fnt_offset := 0, fnt_length := 16, fat_offset := 100, fat_length := 32 }

/-- The children nitro_build_subdir produces for imgBAC's root stream. -/
def chBAC : List nitrofs_entry_t :=
  [.mk .NITRO_FILE_TYPE 3 2 1 NITRO_ROOT [66] [],
   .mk .NITRO_FILE_TYPE 2 2 2 NITRO_ROOT [65] [],
   .mk .NITRO_FILE_TYPE 5 2 3 NITRO_ROOT [67] []]

/-- The tree nitro_build_tree produces for imgBAC. -/
def rootBAC : nitrofs_entry_t :=
  .mk .NITRO_DIR_TYPE 6 2 NITRO_ROOT NITRO_ROOT [] chBAC

/-- An image with root subdirectories "a" (stored id 2, first sequential
file id 256, one file "x") and "b" (stored id 3, first sequential file id
0, one file "y"): the files (2, 256) and (3, 0) collide on
(parent << 8) | id = 768. -/
def imgIno : Image :=
  { mapping := [32, 0, 0, 0, 0, 0, 0, 0] ++ List.replicate 8 0 ++
      [41, 0, 0, 0, 0, 1, 0, 0] ++ [44, 0, 0, 0, 0, 0, 0, 0] ++
      [129, 97, 2, 0, 129, 98, 3, 0, 0] ++
      [1, 120, 0] ++ [1, 121, 0]
    fnt_offset := 0, fnt_length := 47, fat_offset := 100, fat_length := 0 }

/-- k copies of the minimal 2-byte file subentry record: length/type byte
1 followed by the single name byte "a". -/
def pat : Nat → List Nat
  | 0 => []
  | k + 1 => 1 :: 97 :: pat k

/-- An image whose root stream holds 2147483648 two-byte file subentries:
the encoded child records of the root directory total exactly 4294967296
bytes, so the uint32 size accumulator wraps to 0. The mapping is a
parametric list; it is only ever reasoned about, never evaluated. -/
def imgHuge : Image :=
  { mapping := [8, 0, 0, 0, 0, 0, 0, 0] ++ (pat 2147483648 ++ [0])
    fnt_offset := 0, fnt_length := 8, fat_offset := 8, fat_length := 0 }

/-! Helper lemmas. -/

/-- Unfolding noEmptyNames through the children accessor. -/
theorem noEmptyNames_eq (e : nitrofs_entry_t) : noEmptyNames e = noEmptyNamesList e.children := by
  cases e with
  | mk t sz lk i pid nm ch => rw [noEmptyNames, nitrofs_entry_t.children]

/-- Members of a noEmptyNames child list have nonempty C-string names and
noEmptyNames subtrees. -/
theorem noEmptyNamesList_mem : ∀ {ch : List nitrofs_entry_t}, noEmptyNamesList ch = true →
    ∀ {c : nitrofs_entry_t}, c ∈ ch → cstr c.name ≠ [] ∧ noEmptyNames c = true := by
  intro ch
  induction ch with
  | nil => intro _ c hc; cases hc
  | cons e es ih =>
    intro h c hc
    rw [noEmptyNamesList] at h
    simp only [Bool.and_eq_true] at h
    obtain ⟨⟨h1, h2⟩, h3⟩ := h
    rcases List.mem_cons.mp hc with rfl | hc'
    · exact ⟨by simpa using h1, h2⟩
    · exact ih h3 hc'

/-- Looking up the empty component finds nothing when no child has an
empty C-string name. -/
theorem findChild_nil_of_noEmpty {dir : nitrofs_entry_t} (h : noEmptyNames dir = true) :
    findChild dir [] = none := by
  rw [findChild, List.find?_eq_none]
  intro e he
  have hne := (noEmptyNamesList_mem ((noEmptyNames_eq dir) ▸ h) he).1
  simpa [nameMatch] using hne

/-- Descending (or staying put) preserves noEmptyNames. -/
theorem noEmptyNames_childOrSelf {dir : nitrofs_entry_t} (h : noEmptyNames dir = true)
    (comp : List Nat) : noEmptyNames (childOrSelf dir comp) = true := by
  rw [childOrSelf]
  cases hf : findChild dir comp with
  | none => simpa using h
  | some c =>
    rw [findChild] at hf
    have hc : c ∈ dir.children := List.mem_of_find?_eq_some hf
    exact (noEmptyNamesList_mem ((noEmptyNames_eq dir) ▸ h) hc).2

/-- A separator at the start of a component is skipped by the traversal
loop when the current directory has no empty-named child. -/
theorem traverse_loop_skip {dir : nitrofs_entry_t} (h : noEmptyNames dir = true) (r : List Nat) :
    nitro_traverse_loop dir [] (47 :: r) = nitro_traverse_loop dir [] r := by
  have hd : childOrSelf dir [] = dir := by
    rw [childOrSelf, findChild_nil_of_noEmpty h]
    rfl
  calc nitro_traverse_loop dir [] (47 :: r)
      = nitro_traverse_loop (childOrSelf dir []) [] r := rfl
    _ = nitro_traverse_loop dir [] r := by rw [hd]

/-- One step of the traversal loop on a cons path. -/
theorem traverse_loop_cons (dir : nitrofs_entry_t) (acc : List Nat) (c : Nat) (rest : List Nat) :
    nitro_traverse_loop dir acc (c :: rest) =
      if c = 47 then nitro_traverse_loop (childOrSelf dir acc.reverse) [] rest
      else nitro_traverse_loop dir (c :: acc) rest := rfl

/-- dedupSlashes walks over a non-separator head. -/
theorem dedupSlashes_cons_ne {c : Nat} (hc : c ≠ 47) (r : List Nat) :
    dedupSlashes (c :: r) = c :: dedupSlashes r := by
  cases r with
  | nil => rfl
  | cons d r' => rw [dedupSlashes, if_neg (fun hand => hc hand.1)]

/-- dedupSlashes collapses an adjacent separator pair. -/
theorem dedupSlashes_47_47 (r : List Nat) :
    dedupSlashes (47 :: 47 :: r) = dedupSlashes (47 :: r) := by
  rw [dedupSlashes, if_pos ⟨rfl, rfl⟩]

/-- dedupSlashes keeps a separator followed by a non-separator. -/
theorem dedupSlashes_47_ne {d : Nat} (hd : d ≠ 47) (r : List Nat) :
    dedupSlashes (47 :: d :: r) = 47 :: dedupSlashes (d :: r) := by
  rw [dedupSlashes, if_neg (fun hand => hd hand.2)]

/-- dedupSlashes on a path starting with a separator keeps one separator
and drops the rest of the leading run. -/
theorem dedupSlashes_slash (rest : List Nat) :
    dedupSlashes (47 :: rest) = 47 :: dedupSlashes (rest.dropWhile (fun c => c = 47)) := by
  induction rest with
  | nil => rfl
  | cons d r' ih =>
    by_cases hd : d = 47
    · subst hd
      have hdw : (47 :: r').dropWhile (fun c => c = 47) = r'.dropWhile (fun c => c = 47) := by
        simp [List.dropWhile]
      rw [dedupSlashes_47_47, ih, hdw]
    · have hdw : (d :: r').dropWhile (fun c => c = 47) = d :: r' := by
        simp [List.dropWhile, hd]
      rw [dedupSlashes_47_ne hd, hdw]

/-- Non-separator members survive dedupSlashes. -/
theorem mem_dedupSlashes {c : Nat} (h47 : c ≠ 47) :
    ∀ {p : List Nat}, c ∈ p → c ∈ dedupSlashes p := by
  intro p
  induction p with
  | nil => intro hc; cases hc
  | cons d r ih =>
    intro hc
    cases r with
    | nil => simpa [dedupSlashes] using hc
    | cons e r' =>
      rw [dedupSlashes]
      by_cases hde : d = 47 ∧ e = 47
      · rw [if_pos hde]
        rcases List.mem_cons.mp hc with rfl | hc'
        · exact absurd hde.1 h47
        · exact ih hc'
      · rw [if_neg hde]
        rcases List.mem_cons.mp hc with rfl | hc'
        · exact List.mem_cons_self _ _
        · exact List.mem_cons_of_mem _ (ih hc')

/-- A whole leading run of separators is skipped by the traversal loop. -/
theorem traverse_loop_skipAll {dir : nitrofs_entry_t} (h : noEmptyNames dir = true)
    (r : List Nat) : nitro_traverse_loop dir [] r =
      nitro_traverse_loop dir [] (r.dropWhile (fun c => c = 47)) := by
  induction r with
  | nil => rfl
  | cons c r' ih =>
    by_cases hc : c = 47
    · subst hc
      have hdw : (47 :: r').dropWhile (fun c => c = 47) = r'.dropWhile (fun c => c = 47) := by
        simp [List.dropWhile]
      rw [hdw, traverse_loop_skip h r', ih]
    · simp [List.dropWhile, hc]

/-- The traversal loop cannot distinguish a path from its
separator-collapsed form, from any starting directory without empty-named
children and any partially accumulated component. -/
theorem traverse_loop_dedup : ∀ (n : Nat) (p : List Nat), p.length ≤ n →
    ∀ (dir : nitrofs_entry_t) (acc : List Nat), noEmptyNames dir = true →
      nitro_traverse_loop dir acc p = nitro_traverse_loop dir acc (dedupSlashes p) := by
  intro n
  induction n with
  | zero =>
    intro p hp dir acc h
    have hnil : p = [] := List.length_eq_zero.mp (Nat.le_zero.mp hp)
    subst hnil
    rfl
  | succ n ih =>
    intro p hp dir acc h
    cases p with
    | nil => rfl
    | cons c r =>
      by_cases hc : c = 47
      · subst hc
        cases r with
        | nil => rfl
        | cons d r' =>
          have hdir' : noEmptyNames (childOrSelf dir acc.reverse) = true :=
            noEmptyNames_childOrSelf h acc.reverse
          by_cases hd : d = 47
          · subst hd
            have hlen : (47 :: r').length ≤ n := by
              simp only [List.length_cons] at hp ⊢
              omega
            have e1 : nitro_traverse_loop dir acc (47 :: 47 :: r') =
                nitro_traverse_loop (childOrSelf dir acc.reverse) [] (47 :: r') := rfl
            have e2 : nitro_traverse_loop dir acc (47 :: r') =
                nitro_traverse_loop (childOrSelf dir acc.reverse) [] r' := rfl
            rw [dedupSlashes_47_47, ← ih (47 :: r') hlen dir acc h, e1, e2]
            exact traverse_loop_skip hdir' r'
          · have hlen : (d :: r').length ≤ n := by
              simp only [List.length_cons] at hp ⊢
              omega
            have e1 : nitro_traverse_loop dir acc (47 :: d :: r') =
                nitro_traverse_loop (childOrSelf dir acc.reverse) [] (d :: r') := rfl
            have e2 : nitro_traverse_loop dir acc (47 :: dedupSlashes (d :: r')) =
                nitro_traverse_loop (childOrSelf dir acc.reverse) [] (dedupSlashes (d :: r')) := rfl
            rw [dedupSlashes_47_ne hd, e1, e2]
            exact ih (d :: r') hlen _ [] hdir'
      · have hlen : r.length ≤ n := by
          simp only [List.length_cons] at hp
          omega
        rw [dedupSlashes_cons_ne hc, traverse_loop_cons, if_neg hc,
            traverse_loop_cons, if_neg hc]
        exact ih r hlen dir (c :: acc) h

/-- The cyclic image re-enters nitro_build_subdir with the very same
arguments, so no amount of fuel completes the build. -/
theorem build_subdir_cyclic_none (n : Nat) :
    nitro_build_subdir imgCyc 61440 n 8 0 = none := by
  induction n with
  | zero => rfl
  | succ n ih =>
    have step : nitro_build_subdir imgCyc 61440 (n + 1) 8 0 =
        match nitro_build_subdir imgCyc 61440 n 8 0 with
        | none => none
        | some (subCh, subSize, subLinks) =>
          match nitro_build_subdir imgCyc 61440 n 12 0 with
          | none => none
          | some (restCh, restSize, restLinks) =>
            some (nitrofs_entry_t.mk .NITRO_DIR_TYPE subSize ((2 + subLinks) % 4294967296)
                    61440 61440 [65] subCh :: restCh, (4 + restSize) % 4294967296,
                  (1 + restLinks) % 4294967296) := rfl
    rw [step, ih]

/-- The byte run a name is copied from has exactly the requested length. -/
theorem bytesAt_length (img : Image) (i len : Nat) : (img.bytesAt i len).length = len := by
  simp [Image.bytesAt]

/-- sumContrib of a cons. -/
theorem sumContrib_cons (e : nitrofs_entry_t) (ch : List nitrofs_entry_t) :
    sumContrib (e :: ch) = childSizeBytes e + sumContrib ch := by
  simp [sumContrib]

/-- sizesOkList of the empty list. -/
theorem sizesOkList_nil : sizesOkList [] = true := rfl

/-- A directory child's subentry record occupies its name length plus 3
bytes (length/type byte and 2 id bytes). -/
theorem childSizeBytes_dirmk (sz lk i pid : Nat) (nm : List Nat) (ch : List nitrofs_entry_t) :
    childSizeBytes (.mk .NITRO_DIR_TYPE sz lk i pid nm ch) = nm.length + 3 := by
  simp [childSizeBytes, nitrofs_entry_t.name, nitrofs_entry_t.etype]

/-- A file child's subentry record occupies its name length plus 1 byte. -/
theorem childSizeBytes_filemk (sz lk i pid : Nat) (nm : List Nat) (ch : List nitrofs_entry_t) :
    childSizeBytes (.mk .NITRO_FILE_TYPE sz lk i pid nm ch) = nm.length + 1 := by
  simp [childSizeBytes, nitrofs_entry_t.name, nitrofs_entry_t.etype]

/-- Unfolding sizesOk on a constructed entry. -/
theorem sizesOk_mk (t : nitro_type_t) (sz lk i pid : Nat) (nm : List Nat)
    (ch : List nitrofs_entry_t) :
    sizesOk (.mk t sz lk i pid nm ch) =
      ((t == .NITRO_FILE_TYPE || sz == sumContrib ch % 4294967296) && sizesOkList ch) := by
  rw [sizesOk]

/-- sizesOkList of a cons. -/
theorem sizesOkList_cons (e : nitrofs_entry_t) (es : List nitrofs_entry_t) :
    sizesOkList (e :: es) = (sizesOk e && sizesOkList es) := by
  rw [sizesOkList]

/-- Every successful nitro_build_subdir call returns a size increment equal
to the sum of the encoded child-record sizes reduced mod 4294967296 (the
uint32 accumulator), and children whose directory sizes all satisfy the
same truncated sum, recursively. -/
theorem build_subdir_sizes (img : Image) :
    ∀ fuel dirId p nid ch s l,
      nitro_build_subdir img dirId fuel p nid = some (ch, s, l) →
      s = sumContrib ch % 4294967296 ∧ sizesOkList ch = true := by
  intro fuel
  induction fuel with
  | zero => intro dirId p nid ch s l h; simp [nitro_build_subdir] at h
  | succ fuel ih =>
    intro dirId p nid ch s l h
    rw [nitro_build_subdir] at h
    by_cases h0 : img.byte p = 0
    · rw [if_pos h0] at h
      simp only [Option.some.injEq, Prod.mk.injEq] at h
      obtain ⟨rfl, rfl, rfl⟩ := h
      exact ⟨rfl, rfl⟩
    · rw [if_neg h0] at h
      by_cases h1 : 128 ≤ img.byte p
      · rw [if_pos h1] at h
        cases hsub : nitro_build_subdir img (subentryId img p) fuel
            (img.fnt_offset + (img.fntMain (subentryId img p % 4096)).offset)
            (img.fntMain (subentryId img p % 4096)).next_id with
        | none => rw [hsub] at h; simp at h
        | some t =>
          obtain ⟨subCh, subSize, subLinks⟩ := t
          rw [hsub] at h
          cases hrest : nitro_build_subdir img dirId fuel (p + subentryLen img p + 3) nid with
          | none => rw [hrest] at h; simp at h
          | some t2 =>
            obtain ⟨restCh, restSize, restLinks⟩ := t2
            rw [hrest] at h
            simp only [Option.some.injEq, Prod.mk.injEq] at h
            obtain ⟨hch, hs, hl⟩ := h
            subst hch
            obtain ⟨hsub1, hsub2⟩ := ih (subentryId img p)
              (img.fnt_offset + (img.fntMain (subentryId img p % 4096)).offset)
              (img.fntMain (subentryId img p % 4096)).next_id subCh subSize subLinks hsub
            obtain ⟨hrest1, hrest2⟩ := ih dirId (p + subentryLen img p + 3) nid
              restCh restSize restLinks hrest
            constructor
            · rw [sumContrib_cons, childSizeBytes_dirmk, bytesAt_length]
              omega
            · rw [sizesOkList_cons, sizesOk_mk]
              simp [hsub1, hsub2, hrest2]
      · rw [if_neg h1] at h
        cases hrest : nitro_build_subdir img dirId fuel (p + subentryLen img p + 1)
            ((nid + 1) % 65536) with
        | none => rw [hrest] at h; simp at h
        | some t2 =>
          obtain ⟨restCh, restSize, restLinks⟩ := t2
          rw [hrest] at h
          simp only [Option.some.injEq, Prod.mk.injEq] at h
          obtain ⟨hch, hs, hl⟩ := h
          subst hch
          obtain ⟨hrest1, hrest2⟩ := ih dirId (p + subentryLen img p + 1) ((nid + 1) % 65536)
            restCh restSize restLinks hrest
          constructor
          · rw [sumContrib_cons, childSizeBytes_filemk, bytesAt_length]
            omega
          · rw [sizesOkList_cons, sizesOk_mk]
            simp [hrest2, sizesOkList_nil]

/-- The readdir child loop starting at its own running offset emits every
child name in order. -/
theorem readdir_loop_all (ch : List nitrofs_entry_t) :
    ∀ n, nitro_readdir_loop ch n n = ch.map (fun c => cstr c.name) := by
  induction ch with
  | nil => intro n; rfl
  | cons c rest ih =>
    intro n
    rw [nitro_readdir_loop, if_pos rfl, ih]
    rfl

/-- pat k has one length/type byte 1 at every even offset below 2k. -/
theorem pat_getD_even : ∀ (k j : Nat) (t : List Nat) (d : Nat), j < k →
    (pat k ++ t).getD (2 * j) d = 1 := by
  intro k
  induction k with
  | zero => intro j t d hj; exact absurd hj (Nat.not_lt_zero j)
  | succ k ih =>
    intro j t d hj
    cases j with
    | zero => rfl
    | succ j =>
      have h2 : 2 * (j + 1) = 2 * j + 1 + 1 := by omega
      calc (pat (k + 1) ++ t).getD (2 * (j + 1)) d
          = (pat k ++ t).getD (2 * j) d := by rw [h2]; rfl
        _ = 1 := ih j t d (by omega)

/-- pat k has the name byte 97 at every odd offset below 2k. -/
theorem pat_getD_odd : ∀ (k j : Nat) (t : List Nat) (d : Nat), j < k →
    (pat k ++ t).getD (2 * j + 1) d = 97 := by
  intro k
  induction k with
  | zero => intro j t d hj; exact absurd hj (Nat.not_lt_zero j)
  | succ k ih =>
    intro j t d hj
    cases j with
    | zero => rfl
    | succ j =>
      have h2 : 2 * (j + 1) + 1 = 2 * j + 1 + 1 + 1 := by omega
      calc (pat (k + 1) ++ t).getD (2 * (j + 1) + 1) d
          = (pat k ++ t).getD (2 * j + 1) d := by rw [h2]; rfl
        _ = 97 := ih j t d (by omega)

/-- Right after pat k the stream terminator byte 0 sits at offset 2k. -/
theorem pat_getD_end : ∀ (k : Nat) (t : List Nat) (d : Nat),
    (pat k ++ (0 :: t)).getD (2 * k) d = 0 := by
  intro k
  induction k with
  | zero => intro t d; rfl
  | succ k ih =>
    intro t d
    have h2 : 2 * (k + 1) = 2 * k + 1 + 1 := by omega
    calc (pat (k + 1) ++ (0 :: t)).getD (2 * (k + 1)) d
        = (pat k ++ (0 :: t)).getD (2 * k) d := by rw [h2]; rfl
      _ = 0 := ih t d

/-- A byte of imgHuge past its 8-byte main record comes from the pattern. -/
theorem imgHuge_byte (i : Nat) :
    imgHuge.byte (8 + i) = ((pat 2147483648 ++ [0]).getD i 0) % 256 := by
  have h : 8 + i = i + 8 := by omega
  rw [Image.byte, h]
  rfl

/-- Every record of imgHuge's stream starts with the length/type byte 1. -/
theorem imgHuge_byte_one {j : Nat} (hj : j < 2147483648) :
    imgHuge.byte (8 + 2 * j) = 1 := by
  rw [imgHuge_byte (2 * j), pat_getD_even 2147483648 j [0] 0 hj]

/-- imgHuge's stream terminates right after its 2147483648 records. -/
theorem imgHuge_byte_end : imgHuge.byte (8 + 2 * 2147483648) = 0 := by
  rw [imgHuge_byte (2 * 2147483648), pat_getD_end 2147483648 [] 0]

/-- One file step of nitro_build_subdir at a record whose length/type byte
is 1, given the result of the rest of the stream. -/
theorem build_subdir_file_step (img : Image) (dirId fuel p nid : Nat)
    (h1 : img.byte p = 1)
    {restCh : List nitrofs_entry_t} {restSize restLinks : Nat}
    (hrec : nitro_build_subdir img dirId fuel (p + 1 + 1) ((nid + 1) % 65536) =
      some (restCh, restSize, restLinks)) :
    nitro_build_subdir img dirId (fuel + 1) p nid =
      some (nitrofs_entry_t.mk .NITRO_FILE_TYPE
              (u32sub (img.fatEntry nid).end_offset (img.fatEntry nid).start_offset)
              2 nid dirId (img.bytesAt (p + 1) 1) [] :: restCh,
            (1 + 1 + restSize) % 4294967296, restLinks) := by
  have hsl : subentryLen img p = 1 := by rw [subentryLen, h1]
  rw [nitro_build_subdir, if_neg (by omega), if_neg (by omega), hsl, hrec]

/-- Expanding the last m records of imgHuge's stream produces m file
children totalling 2m encoded bytes, while the uint32 size accumulator
holds 2m mod 4294967296. -/
theorem imgHuge_build : ∀ (m : Nat), m ≤ 2147483648 → ∀ (nid : Nat),
    ∃ ch, nitro_build_subdir imgHuge 61440 (m + 1) (8 + 2 * (2147483648 - m)) nid =
        some (ch, (2 * m) % 4294967296, 0) ∧ sumContrib ch = 2 * m := by
  intro m
  induction m with
  | zero =>
    intro _ nid
    refine ⟨[], ?_, rfl⟩
    have hp : 8 + 2 * (2147483648 - 0) = 8 + 2 * 2147483648 := by norm_num
    rw [hp, nitro_build_subdir, if_pos imgHuge_byte_end]
  | succ m ih =>
    intro hm nid
    obtain ⟨ch', hb, hs⟩ := ih (by omega) ((nid + 1) % 65536)
    have hbyte : imgHuge.byte (8 + 2 * (2147483648 - (m + 1))) = 1 :=
      imgHuge_byte_one (by omega)
    have harith : 8 + 2 * (2147483648 - (m + 1)) + 1 + 1 = 8 + 2 * (2147483648 - m) := by
      omega
    have hrec : nitro_build_subdir imgHuge 61440 (m + 1)
        (8 + 2 * (2147483648 - (m + 1)) + 1 + 1) ((nid + 1) % 65536) =
        some (ch', (2 * m) % 4294967296, 0) := by
      rw [harith]
      exact hb
    have hstep := build_subdir_file_step imgHuge 61440 (m + 1)
      (8 + 2 * (2147483648 - (m + 1))) nid hbyte hrec
    have hsz : (1 + 1 + (2 * m) % 4294967296) % 4294967296 =
        (2 * (m + 1)) % 4294967296 := by omega
    rw [hsz] at hstep
    refine ⟨_, hstep, ?_⟩
    rw [sumContrib_cons, childSizeBytes_filemk, bytesAt_length]
    omega

/-! Claim theorems. -/

/-- C1: the specification says readBytes returns the slice
starting at start+offset of the file's allocation extent. The code instead
copies from the extent start regardless of the request offset: for the file
with extent bytes 10, 20 (start offset 16), reading 1 byte at offset 1
returns the byte 10 found at the extent start, not the byte 20 found at
start+offset. -/
theorem nitro_read_copies_from_extent_start :
    fileRead.size = 2 ∧
    (imgRead.fatEntry fileRead.id).start_offset = 16 ∧
    imgRead.byte 16 = 10 ∧
    imgRead.byte 17 = 20 ∧
    nitro_read imgRead fileRead 1 1 = .ok [10] :=
  ⟨rfl, rfl, rfl, rfl, rfl⟩

/-- C2: the specification says a non-matching intermediate component fails
with NotFound. The code instead leaves the current directory unchanged and
continues: in a tree where "/a" exists, "a" has the single child "c" and no
"b" exists anywhere, resolving "/a/b/c" returns the entry "c" rather than
failing. -/
theorem traverse_missing_intermediate_resolves :
    findChild rootAC [97] = some dirA ∧
    findChild dirA [98] = none ∧
    nitro_traverse_path rootAC [47, 97, 47, 98, 47, 99] = some entC :=
  ⟨rfl, rfl, rfl⟩

/-- C3: the specification requires the build to terminate with
CycleDetected/MalformedTree on a self-referential directory subtree. The
code has no cycle or depth guard: on the image whose single subdirectory
subentry points back at the root's own main record, the recursion re-enters
itself with identical arguments, and the build completes under no fuel
bound whatsoever (the C recursion never terminates). -/
theorem build_tree_cyclic_never_completes (fuel : Nat) :
    nitro_build_tree imgCyc fuel = none := by
  rw [nitro_build_tree]
  have h1 : imgCyc.fnt_offset + (imgCyc.fntMain 0).offset = 8 := rfl
  have h2 : (imgCyc.fntMain 0).next_id = 0 := rfl
  rw [h1, h2, show NITRO_ROOT = 61440 from rfl, build_subdir_cyclic_none fuel]

/-- C4: the specification says a subentry whose directory ID index places
its main record at or past the declared name-table length must fail the
build with InvalidDirectoryId. The code never compares the computed record
offset against fnt_length: on an image declaring fnt_length 16 whose only
subentry carries id 5 (record bytes 40 to 47, past the declared extent), the
build simply reads the out-of-range bytes and succeeds, producing a tree. -/
theorem build_tree_accepts_out_of_range_dir_id :
    subentryId imgOob 8 = 5 ∧
    imgOob.fnt_length = 16 ∧
    imgOob.fnt_length < 8 * (5 % 4096) + 8 ∧
    (nitro_build_tree imgOob 16).isSome = true :=
  ⟨rfl, rfl, by decide, rfl⟩

/-- C5: nitro_read fails EINVAL on a negative offset, returns zero bytes
(success) when the offset is at or past the entry size, and when the offset
is in range but offset + length overruns the entry size it returns exactly
entry.size - offset bytes. -/
theorem nitro_read_bounds (img : Image) (entry : nitrofs_entry_t) (size : Nat) (offset : Int) :
    (offset < 0 → nitro_read img entry size offset = .error .EINVAL) ∧
    ((entry.size : Int) ≤ offset → 0 ≤ offset → nitro_read img entry size offset = .ok []) ∧
    (0 ≤ offset → offset < (entry.size : Int) → (entry.size : Int) < offset + size →
      okLength (nitro_read img entry size offset) = some (entry.size - offset.toNat)) := by
  refine ⟨fun h => ?_, fun h1 h2 => ?_, fun h1 h2 h3 => ?_⟩
  · rw [nitro_read, if_pos h]
  · rw [nitro_read, if_neg (by omega), if_pos h1]
  · rw [nitro_read, if_neg (by omega), if_neg (by omega), okLength]
    have hc : entry.size < offset.toNat + size := by omega
    rw [if_pos hc]
    simp [Image.bytesAt]

/-- C5 witness: on the concrete size-2 file, offset -1 fails EINVAL,
offset 9 reads zero bytes, and a 5-byte request at offset 1 reads exactly
1 byte. -/
theorem nitro_read_bounds_witness :
    nitro_read imgRead fileRead 5 (-1) = .error .EINVAL ∧
    nitro_read imgRead fileRead 5 9 = .ok [] ∧
    okLength (nitro_read imgRead fileRead 5 1) = some 1 :=
  ⟨(nitro_read_bounds imgRead fileRead 5 (-1)).1 (by decide),
   (nitro_read_bounds imgRead fileRead 5 9).2.1 (by decide) (by decide),
   (nitro_read_bounds imgRead fileRead 5 1).2.2 (by decide) (by decide) (by decide)⟩

/-- C7 amended: after every successful build, every directory entry of the
tree (the root included) has size equal to the sum over its children of
their encoded record sizes — name length + 3 bytes for a subdirectory
child and name length + 1 bytes for a file child — reduced modulo
4294967296, the truncation of the C's uint32 size accumulator. -/
theorem build_tree_sizes_ok (img : Image) (fuel : Nat) (root : nitrofs_entry_t)
    (h : nitro_build_tree img fuel = some root) : sizesOk root = true := by
  rw [nitro_build_tree] at h
  cases hm : nitro_build_subdir img NITRO_ROOT fuel
      (img.fnt_offset + (img.fntMain 0).offset) (img.fntMain 0).next_id with
  | none => rw [hm] at h; simp at h
  | some t =>
    obtain ⟨ch, s, l⟩ := t
    rw [hm] at h
    simp only [Option.some.injEq] at h
    subst h
    obtain ⟨hs, hok⟩ := build_subdir_sizes img fuel NITRO_ROOT
      (img.fnt_offset + (img.fntMain 0).offset) (img.fntMain 0).next_id ch s l hm
    rw [sizesOk_mk]
    simp [hs, hok]

/-- C7 witness: the tree built from imgBAC satisfies the directory-size sum
property. -/
theorem build_tree_sizes_ok_witness : sizesOk rootBAC = true :=
  build_tree_sizes_ok imgBAC 10 rootBAC rfl

/-- C7 counterexample: on the image whose root stream holds 2147483648
two-byte file subentries, the children's encoded record sizes sum to
4294967296 while the root directory's uint32-accumulated size is 0, so
D.size does not equal the exact (untruncated) sum. -/
theorem build_tree_size_truncates :
    (nitro_build_tree imgHuge 2147483649).map
        (fun r => (r.size, sumContrib r.children)) = some (0, 4294967296) := by
  obtain ⟨ch, hb, hs⟩ := imgHuge_build 2147483648 le_rfl 0
  have h0 : (2 * 2147483648) % 4294967296 = 0 := by norm_num
  rw [h0] at hb
  have hpos : (8 + 2 * (2147483648 - 2147483648) : Nat) = 8 := by norm_num
  rw [hpos] at hb
  have hb2 : nitro_build_subdir imgHuge NITRO_ROOT 2147483649
      (imgHuge.fnt_offset + (imgHuge.fntMain 0).offset) (imgHuge.fntMain 0).next_id =
      some (ch, 0, 0) := by
    rw [show imgHuge.fnt_offset + (imgHuge.fntMain 0).offset = 8 from rfl,
        show (imgHuge.fntMain 0).next_id = 0 from rfl,
        show NITRO_ROOT = 61440 from rfl]
    exact hb
  rw [nitro_build_tree, hb2]
  show some ((nitrofs_entry_t.mk .NITRO_DIR_TYPE 0 ((2 + 0) % 4294967296)
      NITRO_ROOT NITRO_ROOT [] ch).size,
    sumContrib (nitrofs_entry_t.mk .NITRO_DIR_TYPE 0 ((2 + 0) % 4294967296)
      NITRO_ROOT NITRO_ROOT [] ch).children) = some (0, 4294967296)
  rw [show (nitrofs_entry_t.mk .NITRO_DIR_TYPE 0 ((2 + 0) % 4294967296)
      NITRO_ROOT NITRO_ROOT [] ch).children = ch from rfl, hs]
  rfl

/-- C8: listing a directory at offset 0 yields ".", ".." and then the
children exactly in declaration order; on the synthetic image whose root
declares the files B, A, C in that order, the listing is [B, A, C], not the
sorted [A, B, C]. -/
theorem readdir_declaration_order :
    (∀ e : nitrofs_entry_t, nitro_readdir e 0 =
        [46] :: [46, 46] :: e.children.map (fun c => cstr c.name)) ∧
    (nitro_build_tree imgBAC 10).map (fun r => nitro_readdir r 0) =
      some [[46], [46, 46], [66], [65], [67]] := by
  constructor
  · intro e
    rw [nitro_readdir, if_pos rfl, readdir_loop_all]
  · rfl

/-- C9: the inode value reported for every entry is
(parent id << 8) | own id, computed in uint32; the mapping is not
injective: in the tree built from imgIno, the file "x" (id 256 under the
directory with id 2) and the file "y" (id 0 under the directory with id 3)
are distinct entries that both receive inode 768. -/
theorem fill_stat_ino_collision :
    (∀ e : nitrofs_entry_t,
      (nitro_fill_stat e).st_ino = ((e.parentId <<< 8) ||| e.id) % 4294967296) ∧
    ((nitro_build_tree imgIno 16).bind
        (fun r => nitro_traverse_path r [47, 97, 47, 120])).map
        (fun e => ((nitro_fill_stat e).st_ino, cstr e.name, e.id, e.parentId)) =
      some (768, [120], 256, 2) ∧
    ((nitro_build_tree imgIno 16).bind
        (fun r => nitro_traverse_path r [47, 98, 47, 121])).map
        (fun e => ((nitro_fill_stat e).st_ino, cstr e.name, e.id, e.parentId)) =
      some (768, [121], 0, 3) :=
  ⟨fun _ => rfl, rfl, rfl⟩

/-- C10 counterexample: in a tree with no empty-named children, the path
"//" (two consecutive separators, whose components are all empty, so
removing the empty components leaves the path "/") resolves to NotFound,
while "/" resolves to the root: the two results differ, refuting the claim
as stated. -/
theorem traverse_empty_components_counterexample :
    noEmptyNames rootAC = true ∧
    nitro_traverse_path rootAC [47, 47] = none ∧
    nitro_traverse_path rootAC [47] = some rootAC :=
  ⟨rfl, rfl, rfl⟩

/-- C10 amended: in a tree with no empty-named children, any path other
than one consisting solely of two or more separators resolves exactly as
the path with each run of consecutive separators collapsed to one (i.e.
with its empty intermediate components removed); an all-separator path of
length at least two instead performs an empty-name lookup and yields
NotFound, while "/" yields the root. -/
theorem traverse_collapse_separators (root : nitrofs_entry_t) (path : List Nat)
    (h : noEmptyNames root = true)
    (hp : path = [47] ∨ ∃ c ∈ path, c ≠ 47) :
    nitro_traverse_path root path = nitro_traverse_path root (dedupSlashes path) := by
  by_cases h47 : path = [47]
  · subst h47
    rfl
  · obtain ⟨x, hx, hx47⟩ : ∃ c ∈ path, c ≠ 47 := hp.resolve_left h47
    have hd47 : dedupSlashes path ≠ [47] := by
      intro hcontra
      have hmem := mem_dedupSlashes hx47 hx
      rw [hcontra] at hmem
      simp at hmem
      exact hx47 hmem
    rw [nitro_traverse_path, nitro_traverse_path, if_neg h47, if_neg hd47]
    cases path with
    | nil => cases hx
    | cons c rest =>
      by_cases hc : c = 47
      · subst hc
        rw [dedupSlashes_slash]
        show nitro_traverse_loop root [] rest =
          nitro_traverse_loop root [] (dedupSlashes (rest.dropWhile (fun c => c = 47)))
        rw [traverse_loop_skipAll h rest]
        exact traverse_loop_dedup (rest.dropWhile (fun c => c = 47)).length _ le_rfl root [] h
      · rw [dedupSlashes_cons_ne hc]
        show nitro_traverse_loop root [] rest =
          nitro_traverse_loop root [] (dedupSlashes rest)
        exact traverse_loop_dedup rest.length rest le_rfl root [] h

/-- C10 witness: on the concrete empty-name-free tree, "//a" resolves the
same as its collapsed form "/a". -/
theorem traverse_collapse_separators_witness :
    noEmptyNames rootAC = true ∧
    nitro_traverse_path rootAC [47, 47, 97] =
      nitro_traverse_path rootAC (dedupSlashes [47, 47, 97]) :=
  ⟨rfl, traverse_collapse_separators rootAC [47, 47, 97] rfl
    (Or.inr ⟨97, by decide, by decide⟩)⟩
